import Mathlib

/-!
Shallow embedding of the `reth stage unwind` command of taiko-reth
(src/bin/reth/src/commands/stage/unwind.rs), covering range resolution
(`Subcommands::unwind_range`), the pipeline-vs-direct decision and the direct
transactional delete path (`Command::execute`).

All block numbers are u64 in the source; we model them as `Nat` together with
an explicit wrap modulo 2^64 at the one place the source can overflow (the
`+ 1` in `unwind_range`, which in a release build wraps). `saturating_sub` on
u64 coincides with `Nat` subtraction.

Storage and pipeline internals (the provider, MDBX transactions, static-file
provider, pipeline stages) live elsewhere in the repository; where their
behaviour matters it is modelled from the spec, as noted on each definition.
-/

deriving instance DecidableEq for Except

namespace TaikoReth

/-- 2^64, the modulus of u64 arithmetic. -/
def u64Mod : Nat := 2 ^ 64

/-- `RangeInclusive<u64>`: the inclusive block range `[start, stop]` returned
by `Subcommands::unwind_range`. -/
structure RangeInc where
  start : Nat
  stop : Nat
deriving Repr, DecidableEq

/-- `Iterator::min` on a `RangeInclusive`: the smallest element, or `none`
when the range is empty (`start > stop`).  Used by `execute` as
`range.clone().min()`. -/
def RangeInc.min (r : RangeInc) : Option Nat :=
  if r.start ≤ r.stop then some r.start else none

/-- `BlockHashOrNumber`: the target of the `to-block` subcommand.  A hash is
represented by the `Nat` key under which the provider index stores it. -/
inductive BlockHashOrNumber where
  | hash (h : Nat)
  | number (num : Nat)
deriving Repr, DecidableEq

/-- The `Subcommands` enum: `to-block <target>` or `num-blocks <amount>`. -/
inductive Subcommands where
  | toBlock (target : BlockHashOrNumber)
  | numBlocks (amount : Nat)
deriving Repr, DecidableEq

/-- The failure cases surfaced by `unwind_range` and `execute` (the source
reports them through `eyre`; we give each bail site a constructor). -/
inductive UnwindError where
  | blockHashNotFound
  | targetTooHigh
  | cannotUnwindGenesis
  | emptyRange
  | transactionError
  | saveFinalizedError
  | commitError
  | migrationError
  | stageFailure
deriving Repr, DecidableEq

/-- The value the source matches out of the subcommand before adding one:
`num` for an explicit number, the index lookup for a hash (failing when the
hash is absent), and `last.saturating_sub(amount)` for `num-blocks`.
`block_number` models `provider.block_number(hash)`. -/
def preTarget (cmd : Subcommands) (block_number : Nat → Option Nat) (last : Nat) :
    Except UnwindError Nat :=
  match cmd with
  | .toBlock (.hash h) =>
    match block_number h with
    | some num => .ok num
    | none => .error .blockHashNotFound
  | .toBlock (.number num) => .ok num
  | .numBlocks amount => .ok (last - amount)

/-- `Subcommands::unwind_range`: adds one to the matched value (u64 addition,
wrapping modulo 2^64), bails with `targetTooHigh` when the result exceeds
`last` (the current head), and otherwise returns `target..=last`. -/
def unwind_range (cmd : Subcommands) (block_number : Nat → Option Nat) (last : Nat) :
    Except UnwindError RangeInc :=
  match preTarget cmd block_number last with
  | .error e => .error e
  | .ok pre =>
    let target := (pre + 1) % u64Mod
    if target > last then .error .targetTooHigh
    else .ok ⟨target, last⟩

/-- The state of the mutable (MDBX) store visible to the unwind command:
the set of stored block numbers, the head (`last_block_number`) and the
finalized pointer (`last_finalized_block_number`). -/
structure MutableStore where
  blocks : List Nat
  head : Nat
  finalized : Nat
deriving Repr, DecidableEq

/-- Observable calls made by `execute`, in order. An event is recorded when
the corresponding call completes successfully. -/
inductive Event where
  | moveToStaticFiles
  | pipelineUnwind (target : Nat) (tip : Option Nat)
  | takeBlockAndExecutionRange (r : RangeInc)
  | saveFinalizedBlockNumber (n : Nat)
  | commit
deriving Repr, DecidableEq

/-- Fault injection: which of the fallible storage calls fails on this run. -/
structure Faults where
  migrateFails : Bool
  unwindFails : Bool
  takeFails : Bool
  saveFails : Bool
  commitFails : Bool
deriving Repr, DecidableEq

/-- The fault-free run. -/
def noFaults : Faults := ⟨false, false, false, false, false⟩

/-- `provider.take_block_and_execution_range(range)`.  Modelled from the spec:
the provider implementation is not under src/; the spec says the call
bulk-deletes the block range with its execution results inside the open
transaction, after which the head is `range.start - 1`. -/
def take_block_and_execution_range (s : MutableStore) (r : RangeInc) : MutableStore :=
  { s with
    blocks := s.blocks.filter (fun b => decide (b < r.start) || decide (r.stop < b)),
    head := r.start - 1 }

/-- `provider.save_finalized_block_number(n)`.  Modelled from the spec: writes
the finalized pointer inside the open transaction. -/
def save_finalized_block_number (s : MutableStore) (n : Nat) : MutableStore :=
  { s with finalized := n }

/-- The direct (database) unwind path of `Command::execute`, lines 72-88:
open one read-write transaction, `take_block_and_execution_range`, read the
finalized pointer, save `range_min` over it when `range_min` is strictly
below it, then commit.  Transactionality is modelled from the spec: effects
accumulate on a transaction copy of the store and become visible only at
commit, so any failure returns the unchanged pre-state. -/
def executeDirect (f : Faults) (store : MutableStore) (range : RangeInc) :
    Except UnwindError Unit × MutableStore × List Event :=
  if f.takeFails then (.error .transactionError, store, [])
  else
    let tx := take_block_and_execution_range store range
    let last_saved_finalized_block_number := tx.finalized
    match range.min with
    | none => (.error .emptyRange, store, [Event.takeBlockAndExecutionRange range])
    | some range_min =>
      if range_min < last_saved_finalized_block_number then
        if f.saveFails then
          (.error .saveFinalizedError, store, [Event.takeBlockAndExecutionRange range])
        else
          if f.commitFails then
            (.error .commitError, store,
              [Event.takeBlockAndExecutionRange range,
               Event.saveFinalizedBlockNumber range_min])
          else
            (.ok (), save_finalized_block_number tx range_min,
              [Event.takeBlockAndExecutionRange range,
               Event.saveFinalizedBlockNumber range_min, Event.commit])
      else
        if f.commitFails then
          (.error .commitError, store, [Event.takeBlockAndExecutionRange range])
        else
          (.ok (), tx, [Event.takeBlockAndExecutionRange range, Event.commit])

/-- `pipeline.unwind(to, None)` applied to the store.  Modelled from the spec:
stage unwinds remove the blocks above `to` and the head becomes `to`; the
spec lists no finalized-pointer adjustment on this path. -/
def pipelineUnwindApply (s : MutableStore) (tgt : Nat) : MutableStore :=
  { s with blocks := s.blocks.filter (fun b => decide (b ≤ tgt)), head := tgt }

/-- The pipeline unwind path of `Command::execute`, lines 64-70:
`pipeline.move_to_static_files()` first (its `?` aborts the path on failure),
then `pipeline.unwind(range.start().saturating_sub(1), None)`. -/
def executePipeline (f : Faults) (store : MutableStore) (range : RangeInc) :
    Except UnwindError Unit × MutableStore × List Event :=
  if f.migrateFails then (.error .migrationError, store, [])
  else if f.unwindFails then (.error .stageFailure, store, [Event.moveToStaticFiles])
  else
    (.ok (), pipelineUnwindApply store (range.start - 1),
      [Event.moveToStaticFiles, Event.pipelineUnwind (range.start - 1) none])

/-- The decision of `Command::execute` lines 58-62:
`get_highest_static_files().max().filter(|h| h >= range.start()).is_some()`.
`watermark` is the result of `get_highest_static_files().max()`, the highest
block of the immutable (static-file) tier. -/
def pipelinePath (watermark : Option Nat) (range : RangeInc) : Bool :=
  (Option.filter (fun h => decide (range.start ≤ h)) watermark).isSome

/-- `Command::execute`: resolve the range, bail on a genesis unwind
(`range.start == 0`), then dispatch on `pipelinePath`. -/
def execute (f : Faults) (watermark : Option Nat) (block_number : Nat → Option Nat)
    (store : MutableStore) (cmd : Subcommands) :
    Except UnwindError Unit × MutableStore × List Event :=
  match unwind_range cmd block_number store.head with
  | .error e => (.error e, store, [])
  | .ok range =>
    if range.start = 0 then (.error .cannotUnwindGenesis, store, [])
    else if pipelinePath watermark range then executePipeline f store range
    else executeDirect f store range

/-- The store of spec Scenario F: head 100, blocks 0..=100, finalized 95. -/
def storeF : MutableStore := ⟨List.range 101, 100, 95⟩

/-- Commands whose explicit numeric payload fits in u64, as every value
parsed from the CLI does. -/
def validU64Cmd (cmd : Subcommands) : Prop :=
  match cmd with
  | .toBlock (.number num) => num < u64Mod
  | _ => True

theorem u64Mod_eq : u64Mod = 18446744073709551616 := by norm_num [u64Mod]

theorem pipelinePath_none (range : RangeInc) : pipelinePath none range = false := rfl

theorem pipelinePath_some (w : Nat) (range : RangeInc) :
    pipelinePath (some w) range = decide (range.start ≤ w) := by
  by_cases h : range.start ≤ w <;> simp [pipelinePath, Option.filter, h]

theorem execute_err (f : Faults) (wm : Option Nat) (bn : Nat → Option Nat)
    (store : MutableStore) (cmd : Subcommands) (e : UnwindError)
    (hr : unwind_range cmd bn store.head = .error e) :
    execute f wm bn store cmd = (.error e, store, []) := by
  unfold execute
  rw [hr]

theorem execute_genesis (f : Faults) (wm : Option Nat) (bn : Nat → Option Nat)
    (store : MutableStore) (cmd : Subcommands) (range : RangeInc)
    (hr : unwind_range cmd bn store.head = .ok range) (h0 : range.start = 0) :
    execute f wm bn store cmd = (.error .cannotUnwindGenesis, store, []) := by
  unfold execute
  rw [hr]
  simp [h0]

theorem execute_ok (f : Faults) (wm : Option Nat) (bn : Nat → Option Nat)
    (store : MutableStore) (cmd : Subcommands) (range : RangeInc)
    (hr : unwind_range cmd bn store.head = .ok range) (h0 : range.start ≠ 0) :
    execute f wm bn store cmd =
      if pipelinePath wm range then executePipeline f store range
      else executeDirect f store range := by
  unfold execute
  rw [hr]
  simp [h0]

theorem executePipeline_ne_genesis (f : Faults) (store : MutableStore) (range : RangeInc) :
    (executePipeline f store range).1 ≠ .error .cannotUnwindGenesis := by
  unfold executePipeline
  split
  · simp
  · split <;> simp

theorem executeDirect_ne_genesis (f : Faults) (store : MutableStore) (range : RangeInc) :
    (executeDirect f store range).1 ≠ .error .cannotUnwindGenesis := by
  simp only [executeDirect]
  repeat' split
  all_goals simp

theorem pipelineUnwind_not_mem_direct (f : Faults) (store : MutableStore) (range : RangeInc)
    (t : Nat) (tip : Option Nat) :
    Event.pipelineUnwind t tip ∉ (executeDirect f store range).2.2 := by
  simp only [executeDirect]
  repeat' split
  all_goals simp

/-- C1: the claim says the direct path lowers a finalized pointer inside the
deleted range to `range.start - 1`, giving 90 for pointer 95 and range
[91,100].  The code instead saves `range.start` itself: for Scenario F the
post-unwind pointer is 91, not 90, and a pointer already equal to
`range.start` (91) is left untouched at 91. -/
theorem finalized_update_off_by_one :
    (execute noFaults none (fun _ => none) storeF (.toBlock (.number 90))).2.1.finalized = 91 ∧
    (execute noFaults none (fun _ => none) storeF (.toBlock (.number 90))).2.1.finalized ≠ 90 ∧
    (execute noFaults none (fun _ => none)
        { storeF with finalized := 91 } (.toBlock (.number 90))).2.1.finalized = 91 := by
  decide

/-- C2: the post-unwind invariant `FinalizedPointer ≤ ChainHead` fails on the
direct path: unwinding range [91,100] with pre-unwind finalized pointer 95
leaves head 90 but finalized pointer 91, a block the unwind just deleted. -/
theorem finalized_le_head_violated :
    (execute noFaults none (fun _ => none) storeF (.toBlock (.number 90))).2.1.head = 90 ∧
    (execute noFaults none (fun _ => none) storeF (.toBlock (.number 90))).2.1.finalized = 91 ∧
    ¬ ((execute noFaults none (fun _ => none) storeF (.toBlock (.number 90))).2.1.finalized ≤
        (execute noFaults none (fun _ => none) storeF (.toBlock (.number 90))).2.1.head) ∧
    91 ∉ (execute noFaults none (fun _ => none) storeF (.toBlock (.number 90))).2.1.blocks := by
  decide

/-- C4 counterexample: with head 100, target `to-block 0` resolves to the
range [1,100], and execute succeeds (mutating the store) instead of failing
with the genesis error. -/
theorem to_block_zero_counterexample :
    unwind_range (.toBlock (.number 0)) (fun _ => none) 100 = .ok ⟨1, 100⟩ ∧
    (execute noFaults none (fun _ => none) storeF (.toBlock (.number 0))).1 = .ok () ∧
    (execute noFaults none (fun _ => none) storeF (.toBlock (.number 0))).2.1 ≠ storeF := by
  decide

/-- C5: for an explicit-number target strictly below the current head (a u64
value), range resolution succeeds and returns the inclusive range
[target + 1, head]. -/
theorem resolve_explicit_number (num last : Nat) (bn : Nat → Option Nat)
    (h : num < last) (hu : last < u64Mod) :
    unwind_range (.toBlock (.number num)) bn last = .ok ⟨num + 1, last⟩ := by
  have h1 : num + 1 < u64Mod := Nat.lt_of_le_of_lt h hu
  simp only [unwind_range, preTarget]
  rw [Nat.mod_eq_of_lt h1, if_neg (by omega)]

/-- Witness for C5 at target 90, head 100. -/
theorem resolve_explicit_number_witness :
    unwind_range (.toBlock (.number 90)) (fun _ => none) 100 = .ok ⟨91, 100⟩ :=
  resolve_explicit_number 90 100 (fun _ => none) (by decide) (by decide)

/-- C6 counterexample: the target 2^64 - 1 is at or above the head 100, yet
`unwind_range` returns a range (its start wrapped to 0) instead of failing
with the invalid-range error. -/
theorem high_target_counterexample :
    100 ≤ u64Mod - 1 ∧
    unwind_range (.toBlock (.number (u64Mod - 1))) (fun _ => none) 100 = .ok ⟨0, 100⟩ := by
  constructor
  · decide
  · rfl

/-- C6 amended: resolution fails with the invalid-range error for every
target number `num` with `head ≤ num < 2^64 - 1`; only the wrapping target
`2^64 - 1` escapes the check. -/
theorem resolve_rejects_high_target (num last : Nat) (bn : Nat → Option Nat)
    (h1 : last ≤ num) (h2 : num < u64Mod - 1) :
    unwind_range (.toBlock (.number num)) bn last = .error .targetTooHigh := by
  rw [u64Mod_eq] at h2
  have hm : num + 1 < u64Mod := by rw [u64Mod_eq]; omega
  simp only [unwind_range, preTarget]
  rw [Nat.mod_eq_of_lt hm, if_pos (by omega)]

/-- Witness for C6 amended at target 100, head 100. -/
theorem resolve_rejects_high_target_witness :
    unwind_range (.toBlock (.number 100)) (fun _ => none) 100 = .error .targetTooHigh :=
  resolve_rejects_high_target 100 100 (fun _ => none) (by decide) (by decide)

/-- C7: whenever `num-blocks amount` resolution succeeds, the returned range
is [last.saturating_sub(amount) + 1 (u64 addition), last]; in particular
head 50 with `num-blocks 10` resolves to [41, 50]. -/
theorem resolve_num_blocks (amount last : Nat) (bn : Nat → Option Nat) (r : RangeInc)
    (h : unwind_range (.numBlocks amount) bn last = .ok r) :
    (r.start = (last - amount + 1) % u64Mod ∧ r.stop = last) ∧
    unwind_range (.numBlocks 10) bn 50 = .ok ⟨41, 50⟩ := by
  constructor
  · simp only [unwind_range, preTarget] at h
    split at h
    · exact absurd h (by simp)
    · obtain rfl := (Except.ok.injEq _ _).mp h.symm
      exact ⟨rfl, rfl⟩
  · rfl

/-- Witness for C7 at head 50, amount 10. -/
theorem resolve_num_blocks_witness :
    ((⟨41, 50⟩ : RangeInc).start = (50 - 10 + 1) % u64Mod ∧
      (⟨41, 50⟩ : RangeInc).stop = 50) ∧
    unwind_range (.numBlocks 10) (fun _ => none) 50 = .ok ⟨41, 50⟩ :=
  resolve_num_blocks 10 50 (fun _ => none) ⟨41, 50⟩ rfl

/-- C3: once a range with nonzero start is resolved, execute takes the
pipeline path iff the immutable watermark exists and is at least range.start;
in every other case (watermark absent or wholly below the range) it takes the
direct path, and in particular a range starting at watermark + 1 goes
direct. -/
theorem pipeline_path_decision (f : Faults) (wm : Option Nat) (bn : Nat → Option Nat)
    (store : MutableStore) (cmd : Subcommands) (range : RangeInc)
    (hr : unwind_range cmd bn store.head = .ok range) (h0 : range.start ≠ 0) :
    ((∃ w, wm = some w ∧ range.start ≤ w) →
      execute f wm bn store cmd = executePipeline f store range) ∧
    ((∀ w, wm = some w → w < range.start) →
      execute f wm bn store cmd = executeDirect f store range) ∧
    (∀ w, wm = some w → range.start = w + 1 →
      execute f wm bn store cmd = executeDirect f store range) := by
  have hexec := execute_ok f wm bn store cmd range hr h0
  refine ⟨?_, ?_, ?_⟩
  · rintro ⟨w, rfl, hle⟩
    rw [hexec, pipelinePath_some]
    simp [hle]
  · intro hw
    rw [hexec]
    cases wm with
    | none => rw [pipelinePath_none]; simp
    | some w =>
      have hlt : ¬ range.start ≤ w := by have := hw w rfl; omega
      rw [pipelinePath_some]
      simp [hlt]
  · rintro w rfl heq
    rw [hexec, pipelinePath_some]
    have hlt : ¬ range.start ≤ w := by omega
    simp [hlt]

/-- Witness for C3: watermark 95 ≥ range start 91 takes the pipeline path. -/
theorem pipeline_path_decision_witness :
    execute noFaults (some 95) (fun _ => none) storeF (.toBlock (.number 90)) =
      executePipeline noFaults storeF ⟨91, 100⟩ :=
  (pipeline_path_decision noFaults (some 95) (fun _ => none) storeF
      (.toBlock (.number 90)) ⟨91, 100⟩ rfl (by decide)).1 ⟨95, rfl, by decide⟩

/-- C4 amended: `to-block 0` never produces the genesis error: with head ≥ 1
it resolves to [1, head] and passes the genesis guard into a normal unwind;
with head 0 it already fails resolution with the invalid-range error. -/
theorem to_block_zero_amended (f : Faults) (wm : Option Nat) (bn : Nat → Option Nat)
    (store : MutableStore) :
    (execute f wm bn store (.toBlock (.number 0))).1 ≠ .error .cannotUnwindGenesis ∧
    (1 ≤ store.head →
      unwind_range (.toBlock (.number 0)) bn store.head = .ok ⟨1, store.head⟩) ∧
    (store.head = 0 →
      unwind_range (.toBlock (.number 0)) bn store.head = .error .targetTooHigh) := by
  have hres : ∀ last : Nat, unwind_range (.toBlock (.number 0)) bn last =
      if 1 > last then .error .targetTooHigh else .ok ⟨1, last⟩ := by
    intro last
    simp only [unwind_range, preTarget]
    rw [Nat.mod_eq_of_lt (by rw [u64Mod_eq]; omega)]
  refine ⟨?_, ?_, ?_⟩
  · rcases Nat.eq_zero_or_pos store.head with hh | hh
    · have he : unwind_range (.toBlock (.number 0)) bn store.head =
          .error .targetTooHigh := by rw [hres, if_pos (by omega)]
      rw [execute_err f wm bn store _ .targetTooHigh he]
      simp
    · have hr : unwind_range (.toBlock (.number 0)) bn store.head =
          .ok ⟨1, store.head⟩ := by rw [hres, if_neg (by omega)]
      rw [execute_ok f wm bn store _ ⟨1, store.head⟩ hr Nat.one_ne_zero]
      split
      · exact executePipeline_ne_genesis f store ⟨1, store.head⟩
      · exact executeDirect_ne_genesis f store ⟨1, store.head⟩
  · intro hh
    rw [hres, if_neg (by omega)]
  · intro hh
    rw [hres, if_pos (by omega)]

/-- Witness for C4 amended at head 100. -/
theorem to_block_zero_amended_witness :
    unwind_range (.toBlock (.number 0)) (fun _ => none) storeF.head =
      .ok ⟨1, storeF.head⟩ :=
  (to_block_zero_amended noFaults none (fun _ => none) storeF).2.1 (by decide)

/-- C8: whenever execute invokes the pipeline unwind, its tip hint is `none`,
its target is `range.start - 1` for the resolved range, and the whole event
trace is exactly the tier migration followed by that unwind — the unwind is
never invoked without the migration completing first. -/
theorem migration_precedes_pipeline_unwind (f : Faults) (wm : Option Nat)
    (bn : Nat → Option Nat) (store : MutableStore) (cmd : Subcommands)
    (t : Nat) (tip : Option Nat)
    (h : Event.pipelineUnwind t tip ∈ (execute f wm bn store cmd).2.2) :
    tip = none ∧
    ∃ range, unwind_range cmd bn store.head = .ok range ∧ t = range.start - 1 ∧
      (execute f wm bn store cmd).2.2 =
        [Event.moveToStaticFiles, Event.pipelineUnwind (range.start - 1) none] := by
  cases hres : unwind_range cmd bn store.head with
  | error e =>
    rw [execute_err f wm bn store cmd e hres] at h
    simp at h
  | ok range =>
    by_cases h0 : range.start = 0
    · rw [execute_genesis f wm bn store cmd range hres h0] at h
      simp at h
    · rw [execute_ok f wm bn store cmd range hres h0] at h ⊢
      by_cases hp : pipelinePath wm range = true
      · rw [if_pos hp] at h ⊢
        simp only [executePipeline] at h ⊢
        rcases f with ⟨m, u, tk, sv, cm⟩
        cases m
        · cases u
          · simp at h ⊢
            exact ⟨h.2, h.1⟩
          · simp at h
        · simp at h
      · rw [if_neg hp] at h
        exact absurd h (pipelineUnwind_not_mem_direct f store range t tip)

/-- Witness for C8: Scenario-B-like run, watermark 95, range [91,100]. -/
theorem migration_precedes_pipeline_unwind_witness :
    (none : Option Nat) = none ∧
    ∃ range, unwind_range (.toBlock (.number 90)) (fun _ => none) storeF.head =
        .ok range ∧ (90 : Nat) = range.start - 1 ∧
      (execute noFaults (some 95) (fun _ => none) storeF (.toBlock (.number 90))).2.2 =
        [Event.moveToStaticFiles, Event.pipelineUnwind (range.start - 1) none] :=
  migration_precedes_pipeline_unwind noFaults (some 95) (fun _ => none) storeF
    (.toBlock (.number 90)) 90 none (by decide)

/-- C9: the direct path is transactional: the run succeeds iff the trace ends
with the commit, commit never occurs earlier, and every failing run returns
the mutable store unchanged (head, finalized pointer and block data equal to
the pre-unwind state). -/
theorem direct_path_atomic (f : Faults) (store : MutableStore) (range : RangeInc) :
    ((executeDirect f store range).1 = .ok () ↔
      (executeDirect f store range).2.2.getLast? = some Event.commit) ∧
    (∀ e, (executeDirect f store range).1 = .error e →
      (executeDirect f store range).2.1 = store) ∧
    Event.commit ∉ (executeDirect f store range).2.2.dropLast := by
  simp only [executeDirect]
  repeat' split
  all_goals simp [List.getLast?, List.dropLast]

/-- Witness for C9: a failing bulk delete leaves the Scenario F store
untouched. -/
theorem direct_path_atomic_witness :
    (executeDirect ⟨false, false, true, false, false⟩ storeF ⟨91, 100⟩).2.1 = storeF :=
  (direct_path_atomic ⟨false, false, true, false, false⟩ storeF ⟨91, 100⟩).2.1
    .transactionError rfl

/-- C10: a `to-block` target of u64::MAX makes the computed start wrap
modulo 2^64 to 0; execute then fails with the genesis error, leaving the
store untouched and recording no storage call; and such a wrapped
pre-increment target of u64::MAX is the only way a resolved range can start
at 0 (for u64 heads, index entries and command payloads), so the genesis
guard is unreachable for any other input. -/
theorem wraparound_genesis_guard (f : Faults) (wm : Option Nat)
    (bn : Nat → Option Nat) (store : MutableStore)
    (hhead : store.head < u64Mod) (hbn : ∀ h n, bn h = some n → n < u64Mod) :
    unwind_range (.toBlock (.number (u64Mod - 1))) bn store.head =
      .ok ⟨0, store.head⟩ ∧
    execute f wm bn store (.toBlock (.number (u64Mod - 1))) =
      (.error .cannotUnwindGenesis, store, []) ∧
    (∀ cmd r, validU64Cmd cmd → unwind_range cmd bn store.head = .ok r →
      r.start = 0 → preTarget cmd bn store.head = .ok (u64Mod - 1)) := by
  have hz : (u64Mod - 1 + 1) % u64Mod = 0 := by
    rw [Nat.sub_add_cancel (by rw [u64Mod_eq]; omega)]
    exact Nat.mod_self u64Mod
  have h1 : unwind_range (.toBlock (.number (u64Mod - 1))) bn store.head =
      .ok ⟨0, store.head⟩ := by
    simp only [unwind_range, preTarget]
    rw [hz, if_neg (by omega)]
  refine ⟨h1, execute_genesis f wm bn store _ _ h1 rfl, ?_⟩
  intro cmd r hv hr h0
  cases hpt : preTarget cmd bn store.head with
  | error e =>
    simp only [unwind_range, hpt] at hr
    simp at hr
  | ok pre =>
    have hpre : pre < u64Mod := by
      cases cmd with
      | toBlock tgt =>
        cases tgt with
        | hash hh =>
          simp only [preTarget] at hpt
          cases hb : bn hh with
          | none => rw [hb] at hpt; simp at hpt
          | some n =>
            rw [hb] at hpt
            simp only [Except.ok.injEq] at hpt
            subst hpt
            exact hbn hh n hb
        | number num =>
          simp only [preTarget, Except.ok.injEq] at hpt
          subst hpt
          exact hv
      | numBlocks amount =>
        simp only [preTarget, Except.ok.injEq] at hpt
        subst hpt
        omega
    simp only [unwind_range, hpt] at hr
    split at hr
    · simp at hr
    · simp only [Except.ok.injEq] at hr
      subst hr
      simp only [] at h0
      have hdvd : u64Mod ∣ pre + 1 := Nat.dvd_of_mod_eq_zero h0
      have hle : u64Mod ≤ pre + 1 := Nat.le_of_dvd (Nat.succ_pos pre) hdvd
      congr 1
      omega

/-- Witness for C10 at head 100 with an empty hash index. -/
theorem wraparound_genesis_guard_witness :
    execute noFaults none (fun _ => none) storeF (.toBlock (.number (u64Mod - 1))) =
      (.error .cannotUnwindGenesis, storeF, []) :=
  (wraparound_genesis_guard noFaults none (fun _ => none) storeF (by decide)
    (fun _ n hc => by cases hc)).2.1

end TaikoReth
